import Mathlib

/-!
Shallow embedding of the external scanner in `src/scanner.cc` of
tree-sitter-tlaplus: a column-stack-based tokenizer emitting INDENT,
NEWLINE and DEDENT tokens for indentation-sensitive junction lists.

The scanner state is `std::vector<int16_t> column_indices`, modelled as
`List Int` with the bottom of the stack at the head of the list and the
top (`back()`) at the end, matching the vector's layout.  Machine
integers are modelled as `Int`/`Nat` with explicit range reasoning:
`int16_t` values live in `[-32768, 32768)` and serialized bytes are
naturals below 256.  C `assert` failures and undefined behaviour
(control flowing off the end of the non-void `scan`) are made explicit
in the result types.
-/

namespace TlaScanner

/-- The `TokenType` enum of scanner.cc: INDENT, NEWLINE, DEDENT. -/
inductive TokenType : Type
  | INDENT
  | NEWLINE
  | DEDENT
deriving DecidableEq, Repr

/-- The `valid_symbols` array passed by tree-sitter, indexed by the
three token types. -/
structure ValidSymbols : Type where
  indent : Bool
  newline : Bool
  dedent : Bool
deriving DecidableEq, Repr

/-- Narrowing a non-negative machine integer (such as the `uint32_t`
returned by `lexer->get_column`) to `int16_t`, as in
`const column_index conj_col = lexer->get_column(lexer);`. -/
def toInt16 (n : Nat) : Int :=
  let m := n % 65536
  if m < 32768 then (m : Int) else (m : Int) - 65536

/-- `Scanner::get_current_jlist_column_index`: the top of the column
stack, or the sentinel `-1` when the stack is empty. -/
def get_current_jlist_column_index (stack : List Int) : Int :=
  (stack.getLast?).getD (-1)

/-- Outcome of a handler or scan call.  `emit t` is `return true` with
`lexer->result_symbol = t`; `noTok` is `return false`; `undef` is
control flowing off the end of the non-void `scan` function (undefined
return value in C++); `assertFail` is a failed `assert`; `popEmpty` is
`pop_back()` called on an empty `std::vector` (undefined behaviour in
C++ — after it the program state is not defined at all, so no result
field of a `popEmpty` outcome carries any meaning). -/
inductive RetVal : Type
  | emit (t : TokenType)
  | noTok
  | undef
  | assertFail
  | popEmpty
deriving DecidableEq, Repr

/-- Result of `handle_land_token` / `handle_non_land_token`: the return
value together with the column stack after the call. -/
structure HandleResult : Type where
  ret : RetVal
  stack : List Int
deriving DecidableEq, Repr

/-- `Scanner::handle_land_token` (scanner.cc lines 107-131): compare the
column `next` of the encountered `/\` or `∧` token with the current
junction-list column and emit INDENT (push), NEWLINE (no mutation) or
DEDENT (pop one level).  The pop branch is only reached with an empty
stack when `next < -1`, i.e. with an int16-wrapped column; there the
source executes `pop_back()` on an empty vector, which is undefined
behaviour, recorded as `popEmpty`. -/
def handle_land_token (vs : ValidSymbols) (next : Int) (stack : List Int) :
    HandleResult :=
  let current := get_current_jlist_column_index stack
  if current < next then
    if vs.indent then
      ⟨RetVal.emit TokenType.INDENT, stack ++ [next]⟩
    else
      ⟨RetVal.noTok, stack⟩
  else if current = next then
    if vs.newline then ⟨RetVal.emit TokenType.NEWLINE, stack⟩
    else ⟨RetVal.assertFail, stack⟩
  else
    if vs.dedent then
      match stack with
      | [] => ⟨RetVal.popEmpty, []⟩
      | _ :: _ => ⟨RetVal.emit TokenType.DEDENT, stack.dropLast⟩
    else ⟨RetVal.assertFail, stack⟩

/-- `Scanner::handle_non_land_token` (scanner.cc lines 155-170): a
non-land token at column `next` closes one junction list when it lies at
or to the left of the current list's column; otherwise nothing is
emitted.  The pop branch is only reached with an empty stack when
`next ≤ -1`, i.e. with an int16-wrapped column; there the source
executes `pop_back()` on an empty vector, which is undefined behaviour,
recorded as `popEmpty`. -/
def handle_non_land_token (vs : ValidSymbols) (next : Int) (stack : List Int) :
    HandleResult :=
  let current := get_current_jlist_column_index stack
  if next ≤ current then
    if vs.dedent then
      match stack with
      | [] => ⟨RetVal.popEmpty, []⟩
      | _ :: _ => ⟨RetVal.emit TokenType.DEDENT, stack.dropLast⟩
    else ⟨RetVal.assertFail, stack⟩
  else
    ⟨RetVal.noTok, stack⟩

/-- The tree-sitter lexer cursor: the input character stream, the
current lookahead position, and the position recorded by the last
`mark_end` call (the end of the emitted token's text). -/
structure Lexer : Type where
  input : List Char
  pos : Nat
  markedEnd : Option Nat := none
deriving DecidableEq, Repr

/-- `lexer->lookahead`: the codepoint at the cursor, `'\x00'` at end of
input (`has_next` tests this against 0). -/
def lookahead (lx : Lexer) : Char :=
  lx.input.getD lx.pos '\x00'

/-- `Scanner::advance` / `Scanner::skip`: move the cursor one codepoint
forward (the skip variant marks the codepoint as trivia, which does not
affect the state observed here). -/
def advance (lx : Lexer) : Lexer :=
  { lx with pos := lx.pos + 1 }

/-- `lexer->mark_end`: record the current cursor position as the end of
the token text. -/
def mark_end (lx : Lexer) : Lexer :=
  { lx with markedEnd := some lx.pos }

/-- `lexer->get_column` at position `p`: number of characters since the
most recent newline (0 at the start of the input). -/
def colAt (input : List Char) : Nat → Nat
  | 0 => 0
  | p + 1 => if input.getD p '\x00' = '\n' then 0 else colAt input p + 1

/-- Result of a `scan` call: the return value, the column stack after
the call, and the lexer cursor after the call. -/
structure ScanResult : Type where
  ret : RetVal
  stack : List Int
  lexer : Lexer
deriving DecidableEq, Repr

/-- Lift a handler result to a scan result at a given lexer state. -/
def withLexer (r : HandleResult) (lx : Lexer) : ScanResult :=
  ⟨r.ret, r.stack, lx⟩

/-- The `while (has_next(lexer))` loop of `Scanner::scan` (scanner.cc
lines 183-215): skip whitespace trivia; on `∧` or on `/` followed by
`\` call `handle_land_token` with the column of the first character of
the glyph; on any other character call `handle_non_land_token`; if the
input runs out, control flows off the end of the function (`undef`). -/
def scanLoop (vs : ValidSymbols) (stack : List Int) (lx : Lexer) :
    ScanResult :=
  if hnext : lookahead lx = '\x00' then
    ⟨RetVal.undef, stack, lx⟩
  else
    let c := lookahead lx
    if c = ' ' ∨ c = '\t' ∨ c = '\n' ∨ c = '\r' then
      scanLoop vs stack (advance lx)
    else if c = '∧' then
      let conj_col := toInt16 (colAt lx.input lx.pos)
      withLexer (handle_land_token vs conj_col stack) (mark_end lx)
    else if c = '/' then
      let conj_col := toInt16 (colAt lx.input lx.pos)
      let lx' := advance (mark_end lx)
      if lookahead lx' = '\\' then
        withLexer (handle_land_token vs conj_col stack) lx'
      else
        ⟨RetVal.noTok, stack, lx'⟩
    else
      let conj_col := toInt16 (colAt lx.input lx.pos)
      withLexer (handle_non_land_token vs conj_col stack) lx
termination_by lx.input.length - lx.pos
decreasing_by
  have hlt : lx.pos < lx.input.length := by
    by_contra hge
    exact hnext (List.getD_eq_default _ _ (Nat.le_of_not_lt hge))
  simp only [advance]
  omega

/-- `Scanner::scan` (scanner.cc lines 181-217): only enter the loop when
at least one structural token is legal; otherwise control flows off the
end of the non-void function (`undef`, undefined return value). -/
def scan (vs : ValidSymbols) (stack : List Int) (lx : Lexer) : ScanResult :=
  if vs.indent ∨ vs.newline ∨ vs.dedent then
    scanLoop vs stack lx
  else
    ⟨RetVal.undef, stack, lx⟩

/-- Little-endian bytes of an `int16_t` column value as laid out in
memory by `memcpy` in `Scanner::serialize`. -/
def encodeColumn (c : Int) : List Nat :=
  let n := (c % 65536).toNat
  [n % 256, n / 256]

/-- `Scanner::serialize` (scanner.cc lines 25-36): one depth byte
followed by the 16-bit columns bottom to top; returns the buffer
contents and the byte count.  `none` models the `assert` on
`depth <= UINT8_MAX` failing. -/
def serialize (stack : List Int) : Option (List Nat × Nat) :=
  if stack.length ≤ 255 then
    some (stack.length :: stack.flatMap encodeColumn, 1 + 2 * stack.length)
  else
    none

/-- Reassemble an `int16_t` from its two little-endian bytes. -/
def decodeColumn (lo hi : Nat) : Int :=
  let n := lo % 256 + 256 * (hi % 256)
  if n < 32768 then (n : Int) else (n : Int) - 65536

/-- Read `n` consecutive 16-bit columns from a byte buffer (out-of-range
reads yield byte 0, standing in for the unchecked `memcpy`). -/
def readColumns : Nat → List Nat → List Int
  | 0, _ => []
  | n + 1, bytes =>
      decodeColumn (bytes.getD 0 0) (bytes.getD 1 0) :: readColumns n (bytes.drop 2)

/-- `Scanner::deserialize` (scanner.cc lines 38-48): takes the stack the
scanner currently holds (`prior`) and the buffer with its length.  When
`length > 0` and the depth byte is positive, the vector is resized to
the depth and fully overwritten by `memcpy`; in every other case the
body does nothing and the prior stack survives. -/
def deserialize (prior : List Int) (buffer : List Nat) (length : Nat) :
    List Int :=
  if length > 0 then
    let depth := buffer.getD 0 0 % 256
    if depth > 0 then readColumns depth (buffer.drop 1)
    else prior
  else
    prior

/-- Host driver feeding a sequence of land (connective) tokens at the
given columns to `handle_land_token`, one invocation per column,
collecting the emitted results and threading the column stack. -/
def feedConnectives (vs : ValidSymbols) (stack : List Int) :
    List Int → List RetVal × List Int
  | [] => ([], stack)
  | c :: cs =>
      let r := handle_land_token vs c stack
      let rest := feedConnectives vs r.stack cs
      (r.ret :: rest.1, rest.2)

/-- Host driver performing a sequence of `scan` invocations, each with
its own legal-symbol set and lexer state, threading the column stack
through.  An invocation that reaches the undefined `pop_back()` on an
empty vector leaves the program with no defined state, so the run
yields `none`; otherwise the final stack is returned. -/
def runScans (stack : List Int) : List (ValidSymbols × Lexer) → Option (List Int)
  | [] => some stack
  | call :: rest =>
      let r := scan call.1 stack call.2
      if r.ret = RetVal.popEmpty then none
      else runScans r.stack rest

/-! ## Helper lemmas -/

/-- The current junction-list column of a stack after a push is the
pushed column. -/
theorem get_current_append (stack : List Int) (c : Int) :
    get_current_jlist_column_index (stack ++ [c]) = c := by
  simp [get_current_jlist_column_index, List.getLast?_concat]

/-- Pushing a column strictly above the current junction-list column
preserves strict increase of the stack. -/
theorem chain_lt_push (stack : List Int) (c : Int)
    (h : List.Chain' (· < ·) stack)
    (hlt : get_current_jlist_column_index stack < c) :
    List.Chain' (· < ·) (stack ++ [c]) := by
  rw [List.chain'_append]
  refine ⟨h, List.chain'_singleton c, ?_⟩
  intro x hx y hy
  simp only [List.head?_cons, Option.mem_def, Option.some.injEq] at hy
  subst hy
  rw [Option.mem_def] at hx
  unfold get_current_jlist_column_index at hlt
  rw [hx] at hlt
  simpa using hlt

/-- Popping one level preserves strict increase of the stack. -/
theorem chain_lt_dropLast (stack : List Int)
    (h : List.Chain' (· < ·) stack) :
    List.Chain' (· < ·) stack.dropLast :=
  h.sublist (List.dropLast_sublist stack)

/-- `handle_land_token` preserves strict increase of the column
stack. -/
theorem handle_land_token_chain (vs : ValidSymbols) (next : Int)
    (stack : List Int) (h : List.Chain' (· < ·) stack) :
    List.Chain' (· < ·) (handle_land_token vs next stack).stack := by
  simp only [handle_land_token]
  split_ifs with h1 h2 h3 h4
  · exact chain_lt_push stack next h h1
  · exact h
  · exact h
  · exact h
  · cases stack with
    | nil => exact List.chain'_nil
    | cons a t => exact chain_lt_dropLast (a :: t) h
  · exact h

/-- `handle_non_land_token` preserves strict increase of the column
stack. -/
theorem handle_non_land_token_chain (vs : ValidSymbols) (next : Int)
    (stack : List Int) (h : List.Chain' (· < ·) stack) :
    List.Chain' (· < ·) (handle_non_land_token vs next stack).stack := by
  simp only [handle_non_land_token]
  split_ifs with h1 h2
  · cases stack with
    | nil => exact List.chain'_nil
    | cons a t => exact chain_lt_dropLast (a :: t) h
  · exact h
  · exact h

/-- The scan loop preserves strict increase of the column stack:
all stack mutation goes through the two handlers. -/
theorem scanLoop_chain (vs : ValidSymbols) (stack : List Int)
    (h : List.Chain' (· < ·) stack) (lx : Lexer) :
    List.Chain' (· < ·) (scanLoop vs stack lx).stack := by
  have H : ∀ (n : Nat) (lx : Lexer), lx.input.length - lx.pos ≤ n →
      List.Chain' (· < ·) (scanLoop vs stack lx).stack := by
    intro n
    induction n with
    | zero =>
        intro lx hle
        have hnext : lookahead lx = '\x00' :=
          List.getD_eq_default _ _ (by omega)
        rw [scanLoop, dif_pos hnext]
        exact h
    | succ n ih =>
        intro lx hle
        by_cases hnext : lookahead lx = '\x00'
        · rw [scanLoop, dif_pos hnext]
          exact h
        · have hlt : lx.pos < lx.input.length := by
            by_contra hge
            exact hnext (List.getD_eq_default _ _ (Nat.le_of_not_lt hge))
          rw [scanLoop, dif_neg hnext]
          simp only []
          by_cases hws : lookahead lx = ' ' ∨ lookahead lx = '\t' ∨
              lookahead lx = '\n' ∨ lookahead lx = '\r'
          · rw [if_pos hws]
            exact ih (advance lx) (by simp only [advance]; omega)
          · rw [if_neg hws]
            by_cases hconj : lookahead lx = '∧'
            · rw [if_pos hconj]
              exact handle_land_token_chain vs _ stack h
            · rw [if_neg hconj]
              by_cases hslash : lookahead lx = '/'
              · rw [if_pos hslash]
                by_cases hbs : lookahead (advance (mark_end lx)) = '\\'
                · rw [if_pos hbs]
                  exact handle_land_token_chain vs _ stack h
                · rw [if_neg hbs]
                  exact h
              · rw [if_neg hslash]
                exact handle_non_land_token_chain vs _ stack h
  exact H _ lx le_rfl

/-- A single `scan` invocation preserves strict increase of the column
stack. -/
theorem scan_chain (vs : ValidSymbols) (stack : List Int)
    (h : List.Chain' (· < ·) stack) (lx : Lexer) :
    List.Chain' (· < ·) (scan vs stack lx).stack := by
  unfold scan
  split_ifs with h1
  · exact scanLoop_chain vs stack h lx
  · exact h

/-- A `runScans` run that never reaches the undefined empty-pop path
preserves strict increase of the column stack. -/
theorem runScans_chain (stack : List Int)
    (h : List.Chain' (· < ·) stack)
    (calls : List (ValidSymbols × Lexer)) (st : List Int)
    (hrun : runScans stack calls = some st) :
    List.Chain' (· < ·) st := by
  induction calls generalizing stack with
  | nil =>
      simp only [runScans, Option.some.injEq] at hrun
      exact hrun ▸ h
  | cons call rest ih =>
      simp only [runScans] at hrun
      split_ifs at hrun
      exact ih _ (scan_chain call.1 stack h call.2) hrun

/-- Feeding connective columns that ascend strictly from the current
junction-list column, with INDENT legal, emits one INDENT per column
and appends all the columns to the stack. -/
theorem feedConnectives_ascending (vs : ValidSymbols)
    (hvi : vs.indent = true) :
    ∀ (cs stack : List Int),
      List.Chain' (· < ·) (get_current_jlist_column_index stack :: cs) →
      feedConnectives vs stack cs =
        (cs.map (fun _ => RetVal.emit TokenType.INDENT), stack ++ cs) := by
  intro cs
  induction cs with
  | nil =>
      intro stack _
      simp [feedConnectives]
  | cons c cs ih =>
      intro stack hchain
      rw [List.chain'_cons'] at hchain
      obtain ⟨hhead, htail⟩ := hchain
      have hlt : get_current_jlist_column_index stack < c :=
        hhead c (by simp)
      have hstep : handle_land_token vs c stack =
          ⟨RetVal.emit TokenType.INDENT, stack ++ [c]⟩ := by
        simp only [handle_land_token]
        rw [if_pos hlt, if_pos hvi]
      have hrec := ih (stack ++ [c]) (by rwa [get_current_append])
      simp only [feedConnectives, hstep, hrec]
      simp

/-- On an input without newlines the host column of a position is the
position itself. -/
theorem colAt_of_no_newline (input : List Char)
    (hnl : ('\n' : Char) ∉ input) (p : Nat) :
    colAt input p = p := by
  induction p with
  | zero => rfl
  | succ p ih =>
      have hgd : input.getD p '\x00' ≠ '\n' := by
        by_cases hp : p < input.length
        · rw [List.getD_eq_getElem input '\x00' hp]
          intro hc
          exact hnl (hc ▸ input.getElem_mem hp)
        · rw [List.getD_eq_default input '\x00' (Nat.le_of_not_lt hp)]
          decide
      simp only [colAt]
      rw [if_neg hgd, ih]

/-- A serialized column buffer has two bytes per stack entry. -/
theorem length_flatMap_encodeColumn (stack : List Int) :
    (stack.flatMap encodeColumn).length = 2 * stack.length := by
  induction stack with
  | nil => rfl
  | cons c t ih =>
      simp only [List.flatMap_cons, List.length_append, ih, encodeColumn,
        List.length_cons, List.length_nil]
      omega

/-- Decoding the two little-endian bytes of an in-range `int16_t`
recovers the value. -/
theorem decodeColumn_encodeColumn (c : Int)
    (h1 : -32768 ≤ c) (h2 : c < 32768) :
    decodeColumn ((c % 65536).toNat % 256) ((c % 65536).toNat / 256) = c := by
  simp only [decodeColumn]
  have hc : (c % 65536).toNat = if 0 ≤ c then c.toNat else (c + 65536).toNat := by
    split_ifs with h0 <;> omega
  split_ifs at hc ⊢ with h0 hn hn <;> omega

/-- Reading back the columns written by `memcpy` recovers the stack. -/
theorem readColumns_flatMap (stack : List Int)
    (hr : ∀ c ∈ stack, -32768 ≤ c ∧ c < 32768) :
    readColumns stack.length (stack.flatMap encodeColumn) = stack := by
  induction stack with
  | nil => rfl
  | cons c t ih =>
      have hc := hr c (by simp)
      simp only [List.flatMap_cons, List.length_cons, encodeColumn,
        List.cons_append, List.nil_append]
      simp only [readColumns, List.getD_cons_zero, List.getD_cons_succ,
        List.drop_succ_cons, List.drop_zero]
      rw [decodeColumn_encodeColumn c hc.1 hc.2]
      rw [ih (fun x hx => hr x (by simp [hx]))]

/-- For a non-empty in-capacity stack, deserializing the serialized
buffer restores exactly that stack, whatever the scanner held before:
the depth byte is positive, so the vector is resized and fully
overwritten. -/
theorem roundtrip_nonempty (stack prior : List Int)
    (hlen : stack.length ≤ 255) (hne : stack ≠ [])
    (hr : ∀ c ∈ stack, -32768 ≤ c ∧ c < 32768) :
    ∃ bytes count, serialize stack = some (bytes, count) ∧
      deserialize prior bytes count = stack := by
  refine ⟨stack.length :: stack.flatMap encodeColumn, 1 + 2 * stack.length,
    ?_, ?_⟩
  · rw [serialize, if_pos hlen]
  · have hpos : 0 < stack.length := List.length_pos.mpr hne
    rw [deserialize, if_pos (by omega)]
    simp only [List.getD_cons_zero, List.drop_succ_cons, List.drop_zero]
    rw [if_pos (by omega), Nat.mod_eq_of_lt (by omega)]
    exact readColumns_flatMap stack hr

/-! ## Claims -/

/-- Claim C1 (code bug): the round-trip law `decode(encode(s)) == s`
for every in-capacity stack, regardless of the stack the scanner held
before deserializing, fails on the code: serializing the empty stack
yields the single byte 0, and deserializing that buffer into a scanner
holding `[2]` leaves `[2]` in place, because `deserialize` skips the
body entirely when the depth byte is 0 and never clears the vector. -/
theorem C1_roundtrip_empty_not_restored :
    serialize [] = some ([0], 1) ∧
    deserialize [2] [0] 1 = [2] ∧
    ([2] : List Int) ≠ ([] : List Int) :=
  ⟨rfl, rfl, by decide⟩

/-- Claim C2 (code bug): when none of INDENT, NEWLINE, DEDENT is legal,
`scan` consumes no input and leaves the column stack unchanged, but
control flows off the end of the non-void function, so its return value
is undefined rather than the claimed `false`. -/
theorem C2_no_legal_tokens (stack : List Int) (lx : Lexer) :
    scan ⟨false, false, false⟩ stack lx = ⟨RetVal.undef, stack, lx⟩ :=
  rfl

/-- Claim C3: starting from the empty stack, feeding connective glyphs
at strictly increasing non-negative columns with INDENT legal each time
emits exactly one INDENT per invocation and leaves the stack equal to
the fed columns, bottom to top. -/
theorem C3_monotonic_open (vs : ValidSymbols) (cs : List Int)
    (hvi : vs.indent = true)
    (hchain : List.Chain' (· < ·) cs)
    (hnn : ∀ c ∈ cs, 0 ≤ c) :
    feedConnectives vs [] cs =
      (cs.map (fun _ => RetVal.emit TokenType.INDENT), cs) := by
  have h := feedConnectives_ascending vs hvi cs []
  simp only [List.nil_append] at h
  apply h
  rw [List.chain'_cons']
  refine ⟨?_, hchain⟩
  intro y hy
  have hmem : y ∈ cs := List.mem_of_mem_head? hy
  have hnny := hnn y hmem
  rw [show get_current_jlist_column_index [] = -1 from rfl]
  omega

/-- Witness for C3 at columns 2 < 5 < 7. -/
theorem C3_witness :
    feedConnectives ⟨true, false, false⟩ [] [2, 5, 7] =
      ([RetVal.emit TokenType.INDENT, RetVal.emit TokenType.INDENT,
        RetVal.emit TokenType.INDENT], [2, 5, 7]) :=
  C3_monotonic_open ⟨true, false, false⟩ [2, 5, 7] rfl
    (by norm_num [List.chain'_cons]) (by decide)

/-- Claim C4: a connective at exactly the current junction-list column,
with NEWLINE legal, emits exactly one NEWLINE and leaves the stack
unchanged. -/
theorem C4_same_column_separator (vs : ValidSymbols) (stack : List Int)
    (c : Int) (htop : stack.getLast? = some c) (hnl : vs.newline = true) :
    handle_land_token vs c stack = ⟨RetVal.emit TokenType.NEWLINE, stack⟩ := by
  simp only [handle_land_token, get_current_jlist_column_index, htop,
    Option.getD_some]
  simp [hnl]

/-- Witness for C4 on stack `[3]` with a connective at column 3. -/
theorem C4_witness :
    handle_land_token ⟨false, true, false⟩ 3 [3] =
      ⟨RetVal.emit TokenType.NEWLINE, [3]⟩ :=
  C4_same_column_separator ⟨false, true, false⟩ [3] 3 rfl rfl

/-- Claim C5: on a non-empty stack with DEDENT legal, a connective at a
column strictly below the top emits one DEDENT and pops exactly one
level (never more), and a non-connective token does the same already at
a column less than or equal to the top. -/
theorem C5_single_level_close (vs : ValidSymbols) (stack : List Int)
    (t next : Int) (htop : stack.getLast? = some t)
    (hd : vs.dedent = true) :
    (next < t →
      handle_land_token vs next stack =
        ⟨RetVal.emit TokenType.DEDENT, stack.dropLast⟩) ∧
    (next ≤ t →
      handle_non_land_token vs next stack =
        ⟨RetVal.emit TokenType.DEDENT, stack.dropLast⟩) ∧
    stack.dropLast.length + 1 = stack.length := by
  have hne : stack ≠ [] := fun hstack => by simp [hstack] at htop
  refine ⟨?_, ?_, ?_⟩
  · intro hlt
    simp only [handle_land_token, get_current_jlist_column_index, htop,
      Option.getD_some]
    rw [if_neg (by omega), if_neg (by omega), if_pos hd]
    cases stack with
    | nil => exact absurd rfl hne
    | cons a t => rfl
  · intro hle
    simp only [handle_non_land_token, get_current_jlist_column_index, htop,
      Option.getD_some]
    rw [if_pos hle, if_pos hd]
    cases stack with
    | nil => exact absurd rfl hne
    | cons a t => rfl
  · have hpos := List.length_pos.mpr hne
    simp only [List.length_dropLast]
    omega

/-- Witness for C5 on stack `[1, 5]`: a connective at column 2 and a
non-connective at column 5 each pop exactly the level 5. -/
theorem C5_witness :
    handle_land_token ⟨false, false, true⟩ 2 [1, 5] =
      ⟨RetVal.emit TokenType.DEDENT, [1]⟩ ∧
    handle_non_land_token ⟨false, false, true⟩ 5 [1, 5] =
      ⟨RetVal.emit TokenType.DEDENT, [1]⟩ ∧
    ([1, 5] : List Int).dropLast.length + 1 = ([1, 5] : List Int).length :=
  ⟨(C5_single_level_close ⟨false, false, true⟩ [1, 5] 5 2 rfl rfl).1
      (by decide),
    (C5_single_level_close ⟨false, false, true⟩ [1, 5] 5 5 rfl rfl).2.1
      (by decide),
    (C5_single_level_close ⟨false, false, true⟩ [1, 5] 5 2 rfl rfl).2.2⟩

/-- Claim C6: a connective at a column strictly greater than the current
junction-list column (the top, or the -1 sentinel on an empty stack),
with INDENT not legal, emits nothing and leaves the stack unchanged. -/
theorem C6_infix_decline (vs : ValidSymbols) (stack : List Int)
    (next : Int)
    (hgt : get_current_jlist_column_index stack < next)
    (hni : vs.indent = false) :
    handle_land_token vs next stack = ⟨RetVal.noTok, stack⟩ := by
  simp only [handle_land_token]
  rw [if_pos hgt, if_neg (by simp [hni])]

/-- Witness for C6 on stack `[2]` with a connective at column 5. -/
theorem C6_witness :
    handle_land_token ⟨false, true, true⟩ 5 [2] = ⟨RetVal.noTok, [2]⟩ :=
  C6_infix_decline ⟨false, true, true⟩ [2] 5 (by decide) rfl

/-- Claim C7: the column passed to the connective handler is the column
of the first character of the glyph, read before the second character
of the ASCII digraph is consumed, so the Unicode spelling and the
digraph spelling at the same starting column produce the same token and
the same resulting stack. -/
theorem C7_first_char_column (vs : ValidSymbols) (stack : List Int)
    (lx₁ lx₂ : Lexer)
    (h1 : lookahead lx₁ = '∧')
    (h2 : lookahead lx₂ = '/')
    (h2b : lookahead (advance (mark_end lx₂)) = '\\')
    (hcol : colAt lx₁.input lx₁.pos = colAt lx₂.input lx₂.pos) :
    (scanLoop vs stack lx₁).ret = (scanLoop vs stack lx₂).ret ∧
    (scanLoop vs stack lx₁).stack = (scanLoop vs stack lx₂).stack := by
  have e1 : scanLoop vs stack lx₁ =
      withLexer (handle_land_token vs
        (toInt16 (colAt lx₁.input lx₁.pos)) stack) (mark_end lx₁) := by
    rw [scanLoop, dif_neg (by rw [h1]; decide)]
    simp only [h1]
    simp
  have e2 : scanLoop vs stack lx₂ =
      withLexer (handle_land_token vs
        (toInt16 (colAt lx₂.input lx₂.pos)) stack)
        (advance (mark_end lx₂)) := by
    rw [scanLoop, dif_neg (by rw [h2]; decide)]
    simp only [h2]
    simp [h2b]
  rw [e1, e2, hcol]
  exact ⟨rfl, rfl⟩

/-- Witness for C7: the inputs `∧` and `/\` at position 0. -/
theorem C7_witness :
    (scanLoop ⟨true, true, true⟩ [] ⟨['∧'], 0, none⟩).ret =
      (scanLoop ⟨true, true, true⟩ [] ⟨['/', '\\'], 0, none⟩).ret ∧
    (scanLoop ⟨true, true, true⟩ [] ⟨['∧'], 0, none⟩).stack =
      (scanLoop ⟨true, true, true⟩ [] ⟨['/', '\\'], 0, none⟩).stack :=
  C7_first_char_column ⟨true, true, true⟩ [] ⟨['∧'], 0, none⟩
    ⟨['/', '\\'], 0, none⟩ rfl rfl rfl rfl

/-- Claim C8: for stacks of depth at most 255, serialize succeeds and
produces the depth byte followed by the 16-bit columns bottom to top,
returning byte count `1 + 2 * N`, which is exactly the buffer length. -/
theorem C8_serialize_format (stack : List Int) (hlen : stack.length ≤ 255) :
    serialize stack =
      some (stack.length :: stack.flatMap encodeColumn,
        1 + 2 * stack.length) ∧
    (stack.length :: stack.flatMap encodeColumn).length =
      1 + 2 * stack.length := by
  refine ⟨by rw [serialize, if_pos hlen], ?_⟩
  simp only [List.length_cons, length_flatMap_encodeColumn]
  omega

/-- Witness for C8 on the stack `[2, 5]`. -/
theorem C8_witness :
    serialize [2, 5] = some ([2, 2, 0, 5, 0], 5) := by
  rw [(C8_serialize_format [2, 5] (by decide)).1]
  decide

/-- Claim C9: the current junction-list column of the empty stack is
the sentinel -1, strictly less than every legal (non-negative) column;
on a non-empty stack it is the top (innermost) column. -/
theorem C9_sentinel_and_top :
    get_current_jlist_column_index [] = -1 ∧
    (∀ c : Int, 0 ≤ c → get_current_jlist_column_index [] < c) ∧
    (∀ (stack : List Int) (c : Int), stack.getLast? = some c →
      get_current_jlist_column_index stack = c) := by
  refine ⟨rfl, ?_, ?_⟩
  · intro c hc
    rw [show get_current_jlist_column_index [] = -1 from rfl]
    omega
  · intro stack c hlast
    simp [get_current_jlist_column_index, hlast]

/-- Witness for C9 at column 7 and stack `[2, 5]`. -/
theorem C9_witness :
    get_current_jlist_column_index [] = -1 ∧
    get_current_jlist_column_index [] < 7 ∧
    get_current_jlist_column_index [2, 5] = 5 :=
  ⟨C9_sentinel_and_top.1, C9_sentinel_and_top.2.1 7 (by decide),
    C9_sentinel_and_top.2.2 [2, 5] 5 (by decide)⟩

/-- Counterexample to claim C10 as stated: starting from the empty
stack, a single `scan` invocation with only DEDENT legal, whose
lookahead is a non-land character at physical column 32768 (wrapped by
the `int16_t` narrowing to -32768, below the -1 sentinel), reaches
`pop_back()` on the empty vector — undefined behaviour — so the program
does not preserve the invariant unconditionally: the run has no defined
final stack at all. -/
theorem C10_counterexample :
    runScans []
      [(⟨false, false, true⟩, ⟨List.replicate 32769 'x', 32768, none⟩)] =
      none := by
  have key : ∀ input : List Char, input.getD 32768 '\x00' = 'x' →
      colAt input 32768 = 32768 →
      runScans [] [(⟨false, false, true⟩, ⟨input, 32768, none⟩)] = none := by
    intro input hx hcol
    have hlook : lookahead ⟨input, 32768, none⟩ = 'x' := hx
    have hscan : scan ⟨false, false, true⟩ [] ⟨input, 32768, none⟩ =
        ⟨RetVal.popEmpty, [], ⟨input, 32768, none⟩⟩ := by
      rw [scan, if_pos (by simp)]
      rw [scanLoop, dif_neg (by rw [hlook]; decide)]
      simp only [hlook, hcol]
      norm_num [withLexer, handle_non_land_token,
        get_current_jlist_column_index, toInt16]
      rw [if_neg (by decide), if_neg (by decide), if_neg (by decide)]
    simp [runScans, hscan]
  apply key
  · rw [List.getD_eq_getElem _ _
      (by rw [List.length_replicate]; omega)]
    apply List.getElem_replicate
  · refine colAt_of_no_newline _ ?_ 32768
    rw [List.mem_replicate]
    exact fun h => absurd h.2 (by decide)

/-- Claim C10 (amended): starting from the empty stack, every sequence
of `scan` invocations that never reaches the undefined empty-vector
`pop_back()` (reachable only through an int16-wrapped column below the
-1 sentinel with DEDENT legal on an empty stack) leaves the column
stack strictly increasing from bottom to top: a push only ever occurs
with a column strictly above the current top or the -1 sentinel, and a
pop of a strictly increasing stack stays strictly increasing. -/
theorem C10_stack_strictly_increasing (calls : List (ValidSymbols × Lexer))
    (st : List Int) (hrun : runScans [] calls = some st) :
    List.Chain' (· < ·) st :=
  runScans_chain [] List.chain'_nil calls st hrun

/-- Witness for C10: one invocation on input `/\` at column 0 with all
tokens legal runs to completion with final stack `[0]`. -/
theorem C10_witness : List.Chain' (· < ·) [(0 : Int)] :=
  C10_stack_strictly_increasing
    [(⟨true, true, true⟩, ⟨['/', '\\'], 0, none⟩)] [0]
    (by
      have hs : scan ⟨true, true, true⟩ [] ⟨['/', '\\'], 0, none⟩ =
          ⟨RetVal.emit TokenType.INDENT, [0],
            advance (mark_end ⟨['/', '\\'], 0, none⟩)⟩ := by
        rw [scan, if_pos (by simp)]
        rw [scanLoop, dif_neg (by decide)]
        norm_num [lookahead, colAt, toInt16, withLexer, handle_land_token,
          get_current_jlist_column_index, advance, mark_end]
        rw [if_neg (by decide), if_neg (by decide)]
      simp [runScans, hs])

end TlaScanner
